import Mathlib

/-!
Shallow embedding of `rust-nictagadm` (src/src/main.rs): a command-line
utility that parses one of two styles of NIC-tag configuration file into a
mapping keyed by tag name and prints it as a tab-separated table.

Strings are embedded as lists of characters (`Str`), so that the Rust
splitting, trimming and suffix operations can be modelled by structurally
recursive functions amenable to induction.
-/

/-- Lines and fields of the input files, as lists of characters. -/
abbrev Str := List Char

/-- The `NicTag` struct of main.rs (lines 8-13): a named NIC tag with three
optional attributes. `typ` mirrors the Rust field name (`type` is reserved). -/
structure NicTag where
  name : Str
  mac_address : Option Str
  link : Option Str
  typ : Option Str
deriving DecidableEq, Repr

/-- `format_optional_string` (main.rs lines 32-37): the inner string, or a
single dash when the option is unset. -/
def format_optional_string : Option Str → Str
  | some s => s
  | none => ['-']

/-- The data carried by the `invalid_line` diagnostic (main.rs lines 40-42):
file name, 1-based line number, offending line. -/
structure ParseError where
  fname : Str
  line_number : Nat
  line : Str
deriving DecidableEq, Repr

instance {ε α : Type} [DecidableEq ε] [DecidableEq α] : DecidableEq (Except ε α) := fun a b =>
  match a, b with
  | Except.error x, Except.error y =>
    if h : x = y then isTrue (by rw [h]) else isFalse (by intro hc; cases hc; exact h rfl)
  | Except.error _, Except.ok _ => isFalse (by intro hc; cases hc)
  | Except.ok _, Except.error _ => isFalse (by intro hc; cases hc)
  | Except.ok x, Except.ok y =>
    if h : x = y then isTrue (by rw [h]) else isFalse (by intro hc; cases hc; exact h rfl)

/-- Helper for modelling Rust `split`: prepend a character to the first
field of a non-empty field list (a singleton field if the list is empty). -/
def consHead (c : Char) : List Str → List Str
  | [] => [[c]]
  | f :: rest => (c :: f) :: rest

/-- Rust `line.split('=')` (main.rs line 55): full split on every `=`,
keeping empty fields; an input with n occurrences of `=` yields n+1 fields. -/
def splitOnEq : Str → List Str
  | [] => [[]]
  | c :: cs => if c = '=' then [] :: splitOnEq cs else consHead c (splitOnEq cs)

/-- Rust `line.splitn(2, '=')` (main.rs line 92): split on the first `=`
only; the second field keeps any further `=` verbatim. -/
def splitn2Eq : Str → List Str
  | [] => [[]]
  | c :: cs => if c = '=' then [[], cs] else consHead c (splitn2Eq cs)

/-- Rust `char::is_whitespace`: the Unicode White_Space property, i.e.
U+0009-U+000D, U+0020, U+0085, U+00A0, U+1680, U+2000-U+200A, U+2028,
U+2029, U+202F, U+205F and U+3000. -/
def isRustWhitespace (c : Char) : Bool :=
  (0x09 ≤ c.toNat && c.toNat ≤ 0x0D) || c.toNat = 0x20 || c.toNat = 0x85 ||
  c.toNat = 0xA0 || c.toNat = 0x1680 || (0x2000 ≤ c.toNat && c.toNat ≤ 0x200A) ||
  c.toNat = 0x2028 || c.toNat = 0x2029 || c.toNat = 0x202F || c.toNat = 0x205F ||
  c.toNat = 0x3000

/-- Rust `line.trim()` (main.rs line 88): strip leading and trailing
Unicode whitespace. -/
def trimStr (s : Str) : Str :=
  ((s.dropWhile isRustWhitespace).reverse.dropWhile isRustWhitespace).reverse

/-- Rust `line.starts_with("#")` (main.rs line 88): the first character of
the untrimmed line is `#`. -/
def startsWithHash : Str → Bool
  | [] => false
  | c :: _ => c = '#'

/-- The literal suffix `_nic` checked at main.rs line 101. -/
def nicSuffix : Str := "_nic".toList

/-- Rust `name.ends_with("_nic")` (main.rs line 101). -/
def endsWithNic (s : Str) : Bool := List.isSuffixOf nicSuffix s

/-- The literal `normal` stored in the `typ` field (main.rs lines 70, 111). -/
def normalStr : Str := "normal".toList

/-- The parse result: a keyed mapping, modelled as an association list with
unique keys; `HashMap::insert` replacement becomes filter-out-then-append. -/
abbrev TagMap := List (Str × NicTag)

/-- `HashMap::insert` (main.rs lines 73, 114): replaces any existing entry
with the same key (last-wins) and otherwise adds a new entry. -/
def insertTag (m : TagMap) (k : Str) (v : NicTag) : TagMap :=
  (m.filter fun p => ! (p.1 == k)) ++ [(k, v)]

/-- `HashMap::get`-style lookup on the modelled mapping. -/
def lookupTag (m : TagMap) (key : Str) : Option NicTag :=
  (m.find? fun p => p.1 == key).map Prod.snd

/-- Keys of the modelled mapping. -/
def keysOf (m : TagMap) : List Str := m.map Prod.fst

/-- Every record either parser inserts: name equal to the mapping key,
absent link, type `normal`, present MAC address. -/
def goodTag (p : Str × NicTag) : Prop :=
  p.2.name = p.1 ∧ p.2.link = none ∧ p.2.typ = some normalStr ∧
    ∃ s, p.2.mac_address = some s

/-- `parse_tags_file` (main.rs lines 47-77), on the file's lines: every line
must split on `=` into exactly two fields, else the parse aborts; `n` counts
the lines already consumed (the reported number is 1-based). -/
def parse_tags_lines (fname : Str) : List Str → Nat → TagMap → Except ParseError TagMap
  | [], _, acc => Except.ok acc
  | line :: rest, n, acc =>
    match splitOnEq line with
    | [name, mac] =>
      parse_tags_lines fname rest (n + 1)
        (insertTag acc name ⟨name, some mac, none, some normalStr⟩)
    | _ => Except.error ⟨fname, n + 1, line⟩

/-- `parse_usb_file` (main.rs lines 80-118), on the file's lines: skip lines
blank after trimming or starting (untrimmed) with `#`; split remaining lines
on the first `=` (two fields required, else abort); keep only keys ending in
`_nic`. -/
def parse_usb_lines (fname : Str) : List Str → Nat → TagMap → Except ParseError TagMap
  | [], _, acc => Except.ok acc
  | line :: rest, n, acc =>
    if (trimStr line).isEmpty || startsWithHash line then
      parse_usb_lines fname rest (n + 1) acc
    else
      match splitn2Eq line with
      | [name, mac] =>
        if endsWithNic name then
          parse_usb_lines fname rest (n + 1)
            (insertTag acc name ⟨name, some mac, none, some normalStr⟩)
        else
          parse_usb_lines fname rest (n + 1) acc
      | _ => Except.error ⟨fname, n + 1, line⟩

/-- The three accepted filenames (main.rs lines 128-130). -/
def tagsFname : Str := "tags.txt".toList

/-- Lenient filename 1 (main.rs line 129). -/
def usbDatadyneFname : Str := "usb-datadyne.txt".toList

/-- Lenient filename 2 (main.rs line 130). -/
def usbPortalFname : Str := "usb-portal.txt".toList

/-- Which parser a filename dispatches to. -/
inductive ParserKind where
  | strict
  | lenient
deriving DecidableEq, Repr

/-- The `match fname.as_str()` dispatch of main.rs lines 127-132: exact
filename match; `none` models the `panic!("unknown file")` arm. -/
def selectParser (fname : Str) : Option ParserKind :=
  if fname = tagsFname then some ParserKind.strict
  else if fname = usbDatadyneFname then some ParserKind.lenient
  else if fname = usbPortalFname then some ParserKind.lenient
  else none

/-- Run the parser selected for a file over its lines, from an empty map. -/
def runParser : ParserKind → Str → List Str → Except ParseError TagMap
  | ParserKind.strict, fname, lines => parse_tags_lines fname lines 0 []
  | ParserKind.lenient, fname, lines => parse_usb_lines fname lines 0 []

/-- Header row printed at main.rs line 134. -/
def headerStr : Str := "NAME\tMACADDRESS\tLINK\tTYPE".toList

/-- One data row of the report (main.rs lines 136-140): the four fields
joined by single tabs, optionals rendered through `format_optional_string`. -/
def renderRow (t : NicTag) : Str :=
  t.name ++ '\t' :: format_optional_string t.mac_address
    ++ '\t' :: format_optional_string t.link
    ++ '\t' :: format_optional_string t.typ

/-- Message of the `expect` on `File::open` (main.rs line 125). -/
def failedOpenMsg : Str := "Failed to open file".toList

/-- Message of the `panic!` for an unknown filename (main.rs line 131). -/
def unknownFileMsg : Str := "unknown file".toList

/-- The extra stderr hint of the strict parser (main.rs line 59). -/
def hintMsg : Str := "try deleting /tmp/.nic-tags and running again".toList

/-- Observable actions of a run, in order: file-open attempt, the
`invalid_line` stderr diagnostic, other stderr lines, stdout lines, panics,
and explicit `exit` calls. -/
inductive Event where
  | openAttempt (fname : Str)
  | invalidLineEv (fname : Str) (line_number : Nat) (line : Str)
  | errLine (msg : Str)
  | outLine (row : Str)
  | panicked (msg : Str)
  | exited (code : Nat)
deriving DecidableEq, Repr

/-- `main` (main.rs lines 120-142) as an event trace, given the filename
argument and a read-only file system (filename to lines, `none` if the open
fails). `File::open` is attempted first; only then is the filename matched;
on success the header is printed and then one row per mapping entry. -/
def mainTrace (fname : Str) (fs : Str → Option (List Str)) : List Event :=
  match fs fname with
  | none => [Event.openAttempt fname, Event.panicked failedOpenMsg]
  | some lines =>
    Event.openAttempt fname ::
    match selectParser fname with
    | none => [Event.panicked unknownFileMsg]
    | some pk =>
      match runParser pk fname lines with
      | Except.error e =>
        Event.invalidLineEv e.fname e.line_number e.line ::
        (if pk = ParserKind.strict then [Event.errLine hintMsg, Event.exited 1]
         else [Event.exited 1])
      | Except.ok m =>
        Event.outLine headerStr :: m.map fun p => Event.outLine (renderRow p.2)

/-- Project an event to the stdout line it writes, if any. -/
def outLineStr : Event → Option Str
  | Event.outLine s => some s
  | _ => none

/-- The lines written to standard output over a run. -/
def stdoutOf (tr : List Event) : List Str :=
  tr.filterMap outLineStr

/-- Project an event to the exit status it forces, if any (Rust panics
terminate the process with status 101). -/
def exitEventCode : Event → Option Nat
  | Event.exited c => some c
  | Event.panicked _ => some 101
  | _ => none

/-- The exit status of a run: the first `exit` call or panic decides it;
otherwise `0`. -/
def exitCodeOf (tr : List Event) : Nat :=
  (tr.filterMap exitEventCode).headD 0

/-- Concrete file system whose strict file holds one malformed line. -/
def fsStrictBad : Str → Option (List Str) :=
  fun f => if f = tagsFname then some ["admin aa".toList] else none

/-- Concrete file system whose lenient file is empty. -/
def fsEmptyUsb : Str → Option (List Str) :=
  fun f => if f = usbPortalFname then some [] else none

/-- Concrete file system holding an openable file of unknown name. -/
def fsOther : Str → Option (List Str) :=
  fun f => if f = "other.txt".toList then some [] else none

/-- Concrete retained lenient line used to exercise the parsers. -/
def wLines : List Str := ["a_nic=b".toList]

/-- The record the lenient parser builds from `wLines`. -/
def wTag : NicTag := ⟨"a_nic".toList, some ("b".toList), none, some normalStr⟩

/-- A second record under the same key, for last-wins checks. -/
def wTag2 : NicTag := ⟨"a_nic".toList, some ("c".toList), none, some normalStr⟩

/-- The mapping entry produced from `wLines`. -/
def wPair : Str × NicTag := ("a_nic".toList, wTag)

/-- The mapping produced from `wLines`. -/
def wMap : TagMap := [wPair]

/-- Splitting never yields an empty field list. -/
theorem splitOnEq_ne_nil (s : Str) : splitOnEq s ≠ [] := by
  induction s with
  | nil => simp [splitOnEq]
  | cons c cs ih =>
    simp only [splitOnEq]
    split
    · simp
    · cases h : splitOnEq cs with
      | nil => simp [consHead]
      | cons f rest => simp [consHead]

/-- `consHead` preserves the length of a non-empty field list. -/
theorem length_consHead (c : Char) (l : List Str) (h : l ≠ []) :
    (consHead c l).length = l.length := by
  cases l with
  | nil => exact absurd rfl h
  | cons f rest => simp [consHead]

/-- Rust `split('=')` yields one more field than there are `=` characters. -/
theorem splitOnEq_length (s : Str) : (splitOnEq s).length = s.count '=' + 1 := by
  induction s with
  | nil => simp [splitOnEq]
  | cons c cs ih =>
    by_cases hc : c = '='
    · subst hc
      simp [splitOnEq, List.count_cons, ih]
    · simp [splitOnEq, hc, length_consHead c _ (splitOnEq_ne_nil cs), ih, List.count_cons]

/-- `splitn(2, '=')` on a line whose key holds no `=`: exactly the key and
the verbatim remainder after the first `=`. -/
theorem splitn2Eq_first (k v : Str) (hk : '=' ∉ k) :
    splitn2Eq (k ++ '=' :: v) = [k, v] := by
  induction k with
  | nil => simp [splitn2Eq]
  | cons c cs ih =>
    have hc : ¬ c = '=' := fun h => hk (h ▸ List.mem_cons_self c cs)
    have hcs : '=' ∉ cs := fun h => hk (List.mem_cons_of_mem c h)
    simp [splitn2Eq, hc, ih hcs, consHead]

/-- A character that the predicate rejects survives `dropWhile`. -/
theorem mem_dropWhile_of_not {p : Char → Bool} {c : Char} {s : Str}
    (hc : c ∈ s) (hp : p c = false) : c ∈ s.dropWhile p := by
  induction s with
  | nil => cases hc
  | cons a as ih =>
    by_cases ha : p a
    · rw [List.dropWhile_cons_of_pos ha]
      rcases List.mem_cons.mp hc with rfl | hmem
      · rw [ha] at hp; cases hp
      · exact ih hmem
    · rw [List.dropWhile_cons_of_neg ha]
      exact hc

/-- A line holding a non-whitespace character does not trim to empty. -/
theorem trimStr_ne_nil {c : Char} {s : Str} (hc : c ∈ s) (hp : isRustWhitespace c = false) :
    trimStr s ≠ [] := by
  unfold trimStr
  intro h
  have h1 : c ∈ s.dropWhile isRustWhitespace := mem_dropWhile_of_not hc hp
  have h2 : c ∈ (s.dropWhile isRustWhitespace).reverse := List.mem_reverse.mpr h1
  have h3 : c ∈ (s.dropWhile isRustWhitespace).reverse.dropWhile isRustWhitespace :=
    mem_dropWhile_of_not h2 hp
  have h4 : c ∈ ((s.dropWhile isRustWhitespace).reverse.dropWhile isRustWhitespace).reverse :=
    List.mem_reverse.mpr h3
  rw [h] at h4
  cases h4

/-- After an insert, the inserted key maps to the inserted record. -/
theorem lookupTag_insertTag_self (m : TagMap) (k : Str) (v : NicTag) :
    lookupTag (insertTag m k v) k = some v := by
  unfold lookupTag insertTag
  rw [List.find?_append]
  have h1 : (m.filter fun p => ! (p.1 == k)).find? (fun p => p.1 == k) = none := by
    rw [List.find?_eq_none]
    intro p hp
    have h2 := (List.mem_filter.mp hp).2
    simp at h2
    simp [h2]
  rw [h1]
  simp [List.find?]

/-- Inserting preserves uniqueness of keys. -/
theorem insertTag_keysOf_nodup (m : TagMap) (k : Str) (v : NicTag)
    (h : (keysOf m).Nodup) : (keysOf (insertTag m k v)).Nodup := by
  unfold keysOf insertTag at *
  rw [List.map_append, List.nodup_append]
  refine ⟨?_, ?_, ?_⟩
  · exact h.sublist (List.Sublist.map Prod.fst (List.filter_sublist m))
  · simp
  · intro a ha hb
    simp at hb
    subst hb
    rcases List.mem_map.mp ha with ⟨p, hp, hpa⟩
    have h2 := (List.mem_filter.mp hp).2
    simp at h2
    exact h2 hpa

/-- Inserting a good record into a map of good records stays good. -/
theorem insertTag_good (m : TagMap) (k : Str) (v : NicTag)
    (hm : ∀ p ∈ m, goodTag p) (hv : goodTag (k, v)) :
    ∀ p ∈ insertTag m k v, goodTag p := by
  intro p hp
  unfold insertTag at hp
  rcases List.mem_append.mp hp with h | h
  · exact hm p (List.mem_of_mem_filter h)
  · rw [List.mem_singleton] at h
    subst h
    exact hv

/-- One strict-parser step on a well-formed line `NAME=MAC`. -/
theorem parse_tags_step_ok (fname line name mac : Str) (rest : List Str) (n : Nat)
    (acc : TagMap) (h : splitOnEq line = [name, mac]) :
    parse_tags_lines fname (line :: rest) n acc =
      parse_tags_lines fname rest (n + 1)
        (insertTag acc name ⟨name, some mac, none, some normalStr⟩) := by
  simp [parse_tags_lines, h]

/-- One strict-parser step on a malformed line: the reported error carries
the 1-based line number and the offending line. -/
theorem parse_tags_step_error (fname line : Str) (rest : List Str) (n : Nat) (acc : TagMap)
    (h : (splitOnEq line).length ≠ 2) :
    parse_tags_lines fname (line :: rest) n acc = Except.error ⟨fname, n + 1, line⟩ := by
  simp only [parse_tags_lines]
  split
  · next name mac hsp => exact absurd (by simp [hsp]) h
  · rfl

/-- If any line of a strict input is malformed, the whole parse aborts. -/
theorem parse_tags_error_of_bad (fname : Str) (lines : List Str) :
    ∀ (n : Nat) (acc : TagMap), (∃ l ∈ lines, (splitOnEq l).length ≠ 2) →
      ∃ e, parse_tags_lines fname lines n acc = Except.error e := by
  induction lines with
  | nil =>
    intro n acc hbad
    rcases hbad with ⟨l, hl, _⟩
    cases hl
  | cons line rest ih =>
    intro n acc hbad
    by_cases hline : (splitOnEq line).length = 2
    · rcases hsp : splitOnEq line with _ | ⟨a, _ | ⟨b, _ | ⟨c, t⟩⟩⟩ <;>
        rw [hsp] at hline <;> simp at hline
      rw [parse_tags_step_ok fname line a b rest n acc hsp]
      apply ih
      rcases hbad with ⟨l, hl, hlbad⟩
      rcases List.mem_cons.mp hl with rfl | hmem
      · rw [hsp] at hlbad
        simp at hlbad
      · exact ⟨l, hmem, hlbad⟩
    · exact ⟨_, parse_tags_step_error fname line rest n acc hline⟩

/-- One lenient-parser step on a skipped line (blank after trimming, or
starting untrimmed with `#`): the map is untouched and no error occurs. -/
theorem parse_usb_step_skip (fname line : Str) (rest : List Str) (n : Nat) (acc : TagMap)
    (h : trimStr line = [] ∨ startsWithHash line = true) :
    parse_usb_lines fname (line :: rest) n acc = parse_usb_lines fname rest (n + 1) acc := by
  have hcond : ((trimStr line).isEmpty || startsWithHash line) = true := by
    rcases h with h | h
    · simp [h]
    · simp [h]
  simp only [parse_usb_lines, hcond, if_true]

/-- One lenient-parser step on a retained `KEY=VALUE` line: the map gains
the record exactly when the key ends in `_nic`, with the value taken
verbatim after the first `=`. -/
theorem parse_usb_step_eq (fname k v : Str) (rest : List Str) (n : Nat) (acc : TagMap)
    (hk : '=' ∉ k) (hhash : startsWithHash (k ++ '=' :: v) = false) :
    parse_usb_lines fname ((k ++ '=' :: v) :: rest) n acc =
      parse_usb_lines fname rest (n + 1)
        (if endsWithNic k then insertTag acc k ⟨k, some v, none, some normalStr⟩
         else acc) := by
  have hmem : '=' ∈ k ++ '=' :: v := List.mem_append_right k (List.mem_cons_self _ _)
  have htrim : trimStr (k ++ '=' :: v) ≠ [] := trimStr_ne_nil hmem (by decide)
  have hempty : (trimStr (k ++ '=' :: v)).isEmpty = false := by
    cases htt : trimStr (k ++ '=' :: v) with
    | nil => exact absurd htt htrim
    | cons a as => rfl
  have hcond : ((trimStr (k ++ '=' :: v)).isEmpty || startsWithHash (k ++ '=' :: v)) = false := by
    rw [hempty, hhash]
    rfl
  simp only [parse_usb_lines, hcond, Bool.false_eq_true, if_false, splitn2Eq_first k v hk]
  by_cases hnic : endsWithNic k
  · simp [hnic]
  · simp [hnic]

/-- Strict parsing from a map of good records yields good records only. -/
theorem parse_tags_good (fname : Str) (lines : List Str) :
    ∀ (n : Nat) (acc m : TagMap), (∀ p ∈ acc, goodTag p) →
      parse_tags_lines fname lines n acc = Except.ok m → ∀ p ∈ m, goodTag p := by
  induction lines with
  | nil =>
    intro n acc m hacc h
    simp only [parse_tags_lines] at h
    cases h
    exact hacc
  | cons line rest ih =>
    intro n acc m hacc h
    simp only [parse_tags_lines] at h
    split at h
    · exact ih _ _ _ (insertTag_good _ _ _ hacc ⟨rfl, rfl, rfl, _, rfl⟩) h
    · cases h

/-- Lenient parsing from a map of good records yields good records only. -/
theorem parse_usb_good (fname : Str) (lines : List Str) :
    ∀ (n : Nat) (acc m : TagMap), (∀ p ∈ acc, goodTag p) →
      parse_usb_lines fname lines n acc = Except.ok m → ∀ p ∈ m, goodTag p := by
  induction lines with
  | nil =>
    intro n acc m hacc h
    simp only [parse_usb_lines] at h
    cases h
    exact hacc
  | cons line rest ih =>
    intro n acc m hacc h
    simp only [parse_usb_lines] at h
    split at h
    · exact ih _ _ _ hacc h
    · split at h
      · split at h
        · exact ih _ _ _ (insertTag_good _ _ _ hacc ⟨rfl, rfl, rfl, _, rfl⟩) h
        · exact ih _ _ _ hacc h
      · cases h

/-- Every record in either parser's result is good. -/
theorem runParser_good (pk : ParserKind) (fname : Str) (lines : List Str) (m : TagMap)
    (h : runParser pk fname lines = Except.ok m) : ∀ p ∈ m, goodTag p := by
  cases pk with
  | strict => exact parse_tags_good fname lines 0 [] m (by intro p hp; cases hp) h
  | lenient => exact parse_usb_good fname lines 0 [] m (by intro p hp; cases hp) h

/-- Strict parsing preserves uniqueness of keys. -/
theorem parse_tags_nodup (fname : Str) (lines : List Str) :
    ∀ (n : Nat) (acc m : TagMap), (keysOf acc).Nodup →
      parse_tags_lines fname lines n acc = Except.ok m → (keysOf m).Nodup := by
  induction lines with
  | nil =>
    intro n acc m hacc h
    simp only [parse_tags_lines] at h
    cases h
    exact hacc
  | cons line rest ih =>
    intro n acc m hacc h
    simp only [parse_tags_lines] at h
    split at h
    · exact ih _ _ _ (insertTag_keysOf_nodup _ _ _ hacc) h
    · cases h

/-- Lenient parsing preserves uniqueness of keys. -/
theorem parse_usb_nodup (fname : Str) (lines : List Str) :
    ∀ (n : Nat) (acc m : TagMap), (keysOf acc).Nodup →
      parse_usb_lines fname lines n acc = Except.ok m → (keysOf m).Nodup := by
  induction lines with
  | nil =>
    intro n acc m hacc h
    simp only [parse_usb_lines] at h
    cases h
    exact hacc
  | cons line rest ih =>
    intro n acc m hacc h
    simp only [parse_usb_lines] at h
    split at h
    · exact ih _ _ _ hacc h
    · split at h
      · split at h
        · exact ih _ _ _ (insertTag_keysOf_nodup _ _ _ hacc) h
        · exact ih _ _ _ hacc h
      · cases h

/-- Keys of either parser's result are unique. -/
theorem runParser_nodup (pk : ParserKind) (fname : Str) (lines : List Str) (m : TagMap)
    (h : runParser pk fname lines = Except.ok m) : (keysOf m).Nodup := by
  cases pk with
  | strict => exact parse_tags_nodup fname lines 0 [] m List.nodup_nil h
  | lenient => exact parse_usb_nodup fname lines 0 [] m List.nodup_nil h

/-- Stdout rows of the report carry no exit or panic event. -/
theorem exitEventCode_outLines (m : TagMap) :
    List.filterMap exitEventCode (m.map fun p => Event.outLine (renderRow p.2)) = [] := by
  induction m with
  | nil => rfl
  | cons p rest ih => simp [List.filterMap_cons, exitEventCode, ih]

/-- Trace of a run whose file open fails. -/
theorem mainTrace_open_fail (fname : Str) (fs : Str → Option (List Str))
    (hfs : fs fname = none) :
    mainTrace fname fs = [Event.openAttempt fname, Event.panicked failedOpenMsg] := by
  simp [mainTrace, hfs]

/-- Trace of a run on an openable file of unknown name. -/
theorem mainTrace_unknown (fname : Str) (fs : Str → Option (List Str)) (lines : List Str)
    (hfs : fs fname = some lines) (hsel : selectParser fname = none) :
    mainTrace fname fs = [Event.openAttempt fname, Event.panicked unknownFileMsg] := by
  simp [mainTrace, hfs, hsel]

/-- Trace of a run whose parser aborts on a malformed line. -/
theorem mainTrace_parse_error (fname : Str) (fs : Str → Option (List Str)) (lines : List Str)
    (pk : ParserKind) (e : ParseError)
    (hfs : fs fname = some lines) (hsel : selectParser fname = some pk)
    (hrun : runParser pk fname lines = Except.error e) :
    mainTrace fname fs =
      Event.openAttempt fname :: Event.invalidLineEv e.fname e.line_number e.line ::
        (if pk = ParserKind.strict then [Event.errLine hintMsg, Event.exited 1]
         else [Event.exited 1]) := by
  simp [mainTrace, hfs, hsel, hrun]

/-- Trace of a successful run: the header row, then one row per record. -/
theorem mainTrace_ok (fname : Str) (fs : Str → Option (List Str)) (lines : List Str)
    (pk : ParserKind) (m : TagMap)
    (hfs : fs fname = some lines) (hsel : selectParser fname = some pk)
    (hrun : runParser pk fname lines = Except.ok m) :
    mainTrace fname fs =
      Event.openAttempt fname :: Event.outLine headerStr ::
        m.map fun p => Event.outLine (renderRow p.2) := by
  simp [mainTrace, hfs, hsel, hrun]

/-- C1 (counterexample): the line made of a space then `#` starts with `#`
after trimming, yet the lenient parser rejects it as an invalid line — the
comment check runs on the untrimmed line, so the claim as stated fails. -/
theorem C1_counterexample :
    (trimStr (" #".toList)).head? = some '#' ∧
    parse_usb_lines usbPortalFname [" #".toList] 0 [] =
      Except.error ⟨usbPortalFname, 1, " #".toList⟩ := by decide

/-- C1 (amended): every input line that is empty after whitespace trimming,
or whose untrimmed first character is `#`, contributes no entry to the
mapping and never causes an error — regardless of whether it contains an
`=` or a `_nic` key. -/
theorem C1_amended_skip (fname line : Str) (rest : List Str) (n : Nat) (acc : TagMap)
    (h : trimStr line = [] ∨ startsWithHash line = true) :
    parse_usb_lines fname (line :: rest) n acc = parse_usb_lines fname rest (n + 1) acc :=
  parse_usb_step_skip fname line rest n acc h

/-- C1 witness: a comment line is skipped by the lenient parser. -/
theorem C1_witness :
    (trimStr ("#c".toList) = [] ∨ startsWithHash ("#c".toList) = true) ∧
    parse_usb_lines usbPortalFname ["#c".toList] 0 [] =
      parse_usb_lines usbPortalFname [] 1 [] :=
  ⟨Or.inr (by decide),
   C1_amended_skip usbPortalFname ("#c".toList) [] 0 [] (Or.inr (by decide))⟩

/-- C2: any strict-input line with zero or two-or-more `=` characters makes
the run exit non-zero with nothing (no header, no rows) on stdout. -/
theorem C2_strict_reject (fs : Str → Option (List Str)) (lines : List Str) (l : Str)
    (h1 : fs tagsFname = some lines) (h2 : l ∈ lines) (h3 : l.count '=' ≠ 1) :
    exitCodeOf (mainTrace tagsFname fs) ≠ 0 ∧ stdoutOf (mainTrace tagsFname fs) = [] := by
  have hbad : (splitOnEq l).length ≠ 2 := by
    rw [splitOnEq_length]
    omega
  obtain ⟨e, he⟩ := parse_tags_error_of_bad tagsFname lines 0 [] ⟨l, h2, hbad⟩
  have hsel : selectParser tagsFname = some ParserKind.strict := by decide
  have hrun : runParser ParserKind.strict tagsFname lines = Except.error e := he
  constructor
  · simp [mainTrace, h1, hsel, hrun, exitCodeOf, exitEventCode, List.filterMap_cons]
  · simp [mainTrace, h1, hsel, hrun, stdoutOf, outLineStr, List.filterMap_cons]

/-- C2 witness: the malformed strict file aborts with empty stdout. -/
theorem C2_witness :
    ("admin aa".toList).count '=' ≠ 1 ∧
    (exitCodeOf (mainTrace tagsFname fsStrictBad) ≠ 0 ∧
     stdoutOf (mainTrace tagsFname fsStrictBad) = []) :=
  ⟨by decide,
   C2_strict_reject fsStrictBad ["admin aa".toList] ("admin aa".toList)
     (by decide) (by decide) (by decide)⟩

/-- C3: a retained lenient line with a `_nic` key splits on the first `=`
only — the record's MAC address is the full text after the first `=`,
verbatim, even when the value itself contains `=`. -/
theorem C3_first_equals (fname k v : Str) (rest : List Str) (n : Nat) (acc : TagMap)
    (hk : '=' ∉ k) (_hv : '=' ∈ v) (hnic : endsWithNic k = true)
    (hhash : startsWithHash (k ++ '=' :: v) = false) :
    parse_usb_lines fname ((k ++ '=' :: v) :: rest) n acc =
      parse_usb_lines fname rest (n + 1)
        (insertTag acc k ⟨k, some v, none, some normalStr⟩) := by
  rw [parse_usb_step_eq fname k v rest n acc hk hhash, if_pos hnic]

/-- C3 witness: `weird_nic=key=value` keeps `key=value` verbatim. -/
theorem C3_witness :
    '=' ∉ ("weird_nic".toList) ∧ '=' ∈ ("key=value".toList) ∧
    endsWithNic ("weird_nic".toList) = true ∧
    startsWithHash ("weird_nic".toList ++ '=' :: "key=value".toList) = false ∧
    parse_usb_lines usbDatadyneFname [("weird_nic".toList ++ '=' :: "key=value".toList)] 0 [] =
      parse_usb_lines usbDatadyneFname [] 1
        (insertTag [] ("weird_nic".toList)
          ⟨"weird_nic".toList, some ("key=value".toList), none, some normalStr⟩) :=
  ⟨by decide, by decide, by decide, by decide,
   C3_first_equals usbDatadyneFname ("weird_nic".toList) ("key=value".toList) [] 0 []
     (by decide) (by decide) (by decide) (by decide)⟩

/-- C4: a non-comment, non-blank lenient line with an `=` yields a mapping
entry exactly when its key ends in `_nic` (other keys are skipped silently,
with no error and no entry); for retained keys the full key, `_nic` suffix
included, is both the mapping key and the record's name. -/
theorem C4_suffix_filter (fname k v : Str) (rest : List Str) (n : Nat) (acc : TagMap)
    (hk : '=' ∉ k) (hhash : startsWithHash (k ++ '=' :: v) = false) :
    (parse_usb_lines fname ((k ++ '=' :: v) :: rest) n acc =
      parse_usb_lines fname rest (n + 1)
        (if endsWithNic k then insertTag acc k ⟨k, some v, none, some normalStr⟩
         else acc)) ∧
    lookupTag (insertTag acc k ⟨k, some v, none, some normalStr⟩) k =
      some ⟨k, some v, none, some normalStr⟩ :=
  ⟨parse_usb_step_eq fname k v rest n acc hk hhash, lookupTag_insertTag_self acc k _⟩

/-- C4 witness: `hostname=foo` is skipped, and a `_nic` insert is found. -/
theorem C4_witness :
    '=' ∉ ("hostname".toList) ∧
    startsWithHash ("hostname".toList ++ '=' :: "foo".toList) = false ∧
    ((parse_usb_lines usbPortalFname [("hostname".toList ++ '=' :: "foo".toList)] 0 [] =
      parse_usb_lines usbPortalFname [] 1
        (if endsWithNic ("hostname".toList) then
          insertTag [] ("hostname".toList)
            ⟨"hostname".toList, some ("foo".toList), none, some normalStr⟩
         else [])) ∧
     lookupTag (insertTag [] ("hostname".toList)
        ⟨"hostname".toList, some ("foo".toList), none, some normalStr⟩) ("hostname".toList) =
       some ⟨"hostname".toList, some ("foo".toList), none, some normalStr⟩) :=
  ⟨by decide, by decide,
   C4_suffix_filter usbPortalFname ("hostname".toList) ("foo".toList) [] 0 []
     (by decide) (by decide)⟩

/-- C5: on every successful run (exit status 0) the first stdout line is
the header `NAME\tMACADDRESS\tLINK\tTYPE`, mapping empty or not. -/
theorem C5_header_first (fname : Str) (fs : Str → Option (List Str))
    (h : exitCodeOf (mainTrace fname fs) = 0) :
    (stdoutOf (mainTrace fname fs)).head? = some headerStr := by
  cases hfs : fs fname with
  | none =>
    rw [mainTrace_open_fail fname fs hfs] at h
    simp [exitCodeOf, exitEventCode] at h
  | some lines =>
    cases hsel : selectParser fname with
    | none =>
      rw [mainTrace_unknown fname fs lines hfs hsel] at h
      simp [exitCodeOf, exitEventCode] at h
    | some pk =>
      cases hrun : runParser pk fname lines with
      | error e =>
        rw [mainTrace_parse_error fname fs lines pk e hfs hsel hrun] at h
        cases pk <;> simp [exitCodeOf, exitEventCode] at h
      | ok m =>
        rw [mainTrace_ok fname fs lines pk m hfs hsel hrun]
        simp [stdoutOf, outLineStr]

/-- C5 witness: an empty lenient file still prints the header. -/
theorem C5_witness :
    exitCodeOf (mainTrace usbPortalFname fsEmptyUsb) = 0 ∧
    (stdoutOf (mainTrace usbPortalFname fsEmptyUsb)).head? = some headerStr :=
  ⟨by decide, C5_header_first usbPortalFname fsEmptyUsb (by decide)⟩

/-- C6: every record in either parser's result has an absent link and type
`normal`, so its data row renders LINK as `-` and TYPE as `normal`. -/
theorem C6_link_type (pk : ParserKind) (fname : Str) (lines : List Str) (m : TagMap)
    (p : Str × NicTag) (h : runParser pk fname lines = Except.ok m) (hp : p ∈ m) :
    p.2.link = none ∧ p.2.typ = some normalStr ∧
    renderRow p.2 = p.2.name ++ '\t' :: format_optional_string p.2.mac_address
      ++ '\t' :: '-' :: '\t' :: normalStr := by
  obtain ⟨-, hlink, htyp, -⟩ := runParser_good pk fname lines m h p hp
  refine ⟨hlink, htyp, ?_⟩
  simp [renderRow, hlink, htyp, format_optional_string]

/-- C6 witness: the row for `a_nic=b` ends in a dash and `normal`. -/
theorem C6_witness :
    runParser ParserKind.lenient usbPortalFname wLines = Except.ok wMap ∧
    wPair ∈ wMap ∧
    (wPair.2.link = none ∧ wPair.2.typ = some normalStr ∧
     renderRow wPair.2 = wPair.2.name ++ '\t' :: format_optional_string wPair.2.mac_address
       ++ '\t' :: '-' :: '\t' :: normalStr) :=
  ⟨by decide, by decide,
   C6_link_type ParserKind.lenient usbPortalFname wLines wMap wPair (by decide) (by decide)⟩

/-- C7: keys of either parser's result are unique, and inserting under an
already-present key silently replaces the earlier record (last-wins). -/
theorem C7_unique_last_wins (pk : ParserKind) (fname : Str) (lines : List Str) (m : TagMap)
    (h : runParser pk fname lines = Except.ok m) :
    (keysOf m).Nodup ∧
    ∀ (acc : TagMap) (key : Str) (t1 t2 : NicTag),
      lookupTag (insertTag (insertTag acc key t1) key t2) key = some t2 :=
  ⟨runParser_nodup pk fname lines m h,
   fun acc key t1 t2 => lookupTag_insertTag_self (insertTag acc key t1) key t2⟩

/-- C7 witness: parse of `wLines` has unique keys; a repeated key keeps the
later record. -/
theorem C7_witness :
    runParser ParserKind.lenient usbPortalFname wLines = Except.ok wMap ∧
    (keysOf wMap).Nodup ∧
    lookupTag (insertTag (insertTag [] ("a_nic".toList) wTag) ("a_nic".toList) wTag2)
      ("a_nic".toList) = some wTag2 :=
  ⟨by decide,
   (C7_unique_last_wins ParserKind.lenient usbPortalFname wLines wMap (by decide)).1,
   (C7_unique_last_wins ParserKind.lenient usbPortalFname wLines wMap (by decide)).2
     [] ("a_nic".toList) wTag wTag2⟩

/-- C8: on every aborting run (non-zero exit: unknown filename, open
failure, malformed line) nothing is written to stdout — no header, no row. -/
theorem C8_no_partial_output (fname : Str) (fs : Str → Option (List Str))
    (h : exitCodeOf (mainTrace fname fs) ≠ 0) :
    stdoutOf (mainTrace fname fs) = [] := by
  cases hfs : fs fname with
  | none =>
    rw [mainTrace_open_fail fname fs hfs]
    simp [stdoutOf, outLineStr]
  | some lines =>
    cases hsel : selectParser fname with
    | none =>
      rw [mainTrace_unknown fname fs lines hfs hsel]
      simp [stdoutOf, outLineStr]
    | some pk =>
      cases hrun : runParser pk fname lines with
      | error e =>
        rw [mainTrace_parse_error fname fs lines pk e hfs hsel hrun]
        cases pk <;> simp [stdoutOf, outLineStr]
      | ok m =>
        rw [mainTrace_ok fname fs lines pk m hfs hsel hrun] at h
        refine absurd ?_ h
        simp only [exitCodeOf]
        rw [List.filterMap_cons_none rfl, List.filterMap_cons_none rfl,
          exitEventCode_outLines]
        rfl

/-- C8 witness: the malformed strict file writes nothing to stdout. -/
theorem C8_witness :
    exitCodeOf (mainTrace tagsFname fsStrictBad) ≠ 0 ∧
    stdoutOf (mainTrace tagsFname fsStrictBad) = [] :=
  ⟨by decide, C8_no_partial_output tagsFname fsStrictBad (by decide)⟩

/-- C9 (counterexample): with an openable file of unknown name, the run's
trace opens the file first and only then panics — the abort does not happen
before opening the file, so the claim as stated fails. -/
theorem C9_counterexample :
    selectParser ("other.txt".toList) = none ∧
    mainTrace ("other.txt".toList) fsOther =
      [Event.openAttempt ("other.txt".toList), Event.panicked unknownFileMsg] := by decide

/-- C9 (amended): every filename other than the three accepted names makes
the driver abort with a non-zero exit and nothing on stdout, but only after
the open of the file has been attempted (the trace starts with the open
attempt); the three accepted names dispatch by exact match to the strict,
lenient, and lenient parsers respectively. -/
theorem C9_amended_dispatch (fname : Str) (fs : Str → Option (List Str))
    (h : selectParser fname = none) :
    exitCodeOf (mainTrace fname fs) ≠ 0 ∧
    stdoutOf (mainTrace fname fs) = [] ∧
    (mainTrace fname fs).head? = some (Event.openAttempt fname) ∧
    selectParser tagsFname = some ParserKind.strict ∧
    selectParser usbDatadyneFname = some ParserKind.lenient ∧
    selectParser usbPortalFname = some ParserKind.lenient := by
  have htr : mainTrace fname fs = [Event.openAttempt fname, Event.panicked failedOpenMsg] ∨
      mainTrace fname fs = [Event.openAttempt fname, Event.panicked unknownFileMsg] := by
    cases hfs : fs fname with
    | none => exact Or.inl (mainTrace_open_fail fname fs hfs)
    | some lines => exact Or.inr (mainTrace_unknown fname fs lines hfs h)
  rcases htr with htr | htr <;>
    rw [htr] <;>
    exact ⟨by simp [exitCodeOf, exitEventCode], by simp [stdoutOf, outLineStr], rfl,
      by decide, by decide, by decide⟩

/-- C9 witness: the unknown name `other.txt` aborts after the open. -/
theorem C9_witness :
    selectParser ("other.txt".toList) = none ∧
    (exitCodeOf (mainTrace ("other.txt".toList) fsOther) ≠ 0 ∧
     stdoutOf (mainTrace ("other.txt".toList) fsOther) = [] ∧
     (mainTrace ("other.txt".toList) fsOther).head? =
       some (Event.openAttempt ("other.txt".toList)) ∧
     selectParser tagsFname = some ParserKind.strict ∧
     selectParser usbDatadyneFname = some ParserKind.lenient ∧
     selectParser usbPortalFname = some ParserKind.lenient) :=
  ⟨by decide, C9_amended_dispatch ("other.txt".toList) fsOther (by decide)⟩

/-- C10: every record either parser produces has a present MAC address, so
the MACADDRESS column renders the stored text itself, never the absent-field
dash. -/
theorem C10_mac_present (pk : ParserKind) (fname : Str) (lines : List Str) (m : TagMap)
    (p : Str × NicTag) (h : runParser pk fname lines = Except.ok m) (hp : p ∈ m) :
    ∃ s, p.2.mac_address = some s ∧ format_optional_string p.2.mac_address = s := by
  obtain ⟨-, -, -, s, hs⟩ := runParser_good pk fname lines m h p hp
  refine ⟨s, hs, ?_⟩
  rw [hs]
  rfl

/-- C10 witness: the record parsed from `a_nic=b` carries MAC text `b`. -/
theorem C10_witness :
    runParser ParserKind.lenient usbPortalFname wLines = Except.ok wMap ∧
    wPair ∈ wMap ∧
    ∃ s, wPair.2.mac_address = some s ∧ format_optional_string wPair.2.mac_address = s :=
  ⟨by decide, by decide,
   C10_mac_present ParserKind.lenient usbPortalFname wLines wMap wPair (by decide) (by decide)⟩
